import Mathlib

/-!
Verification of the context-propagation and conversation-state engine of the
wrkbench-app repository, shallowly embedded from the TypeScript sources
(`src/components/ChatNode.tsx`, `src/components/ContextNode.tsx` and the
route file that hosts the canvas).  Stateful React code is modelled as pure
functions on explicit state records; the asynchronous streaming exchange is
modelled by passing in the outcome of the stream (the list of text chunks
received, and whether the transport failed) and computing the final state.
-/

namespace Wrkbench

/-- Roles a chat message can have (`'user' | 'assistant'` in the source). -/
inductive Role where
  | user
  | assistant
deriving DecidableEq, Repr

/-- Snapshot of a referenced message stored in `replyTo` (id/content/role,
captured at send time, per `handleSend` in ChatNode.tsx). -/
structure ReplyRef where
  id : String
  content : String
  role : Role
deriving DecidableEq, Repr

/-- The `Message` interface of ChatNode.tsx. -/
structure Message where
  id : String
  role : Role
  content : String
  replyTo : Option ReplyRef := none
deriving DecidableEq, Repr

/-- Character-list prefix test, used to embed JavaScript
`String.prototype.startsWith`. -/
def listIsPrefix : List Char → List Char → Bool
  | [], _ => true
  | _ :: _, [] => false
  | a :: as, b :: bs => a == b && listIsPrefix as bs

/-- Embedding of JavaScript `s.startsWith(p)`. -/
def strStartsWith (s p : String) : Bool :=
  listIsPrefix p.data s.data

/-- Embedding of JavaScript `s.trim()`: strip leading and trailing
whitespace. -/
def jsTrim (s : String) : String :=
  ⟨((s.data.dropWhile Char.isWhitespace).reverse.dropWhile Char.isWhitespace).reverse⟩

/-- Concatenation of a list of stream chunks, in order. -/
def joinChunks : List String → String
  | [] => ""
  | c :: cs => c ++ joinChunks cs

/-- Embedding of JavaScript `Array.prototype.join(sep)`. -/
def joinSep (sep : String) : List String → String
  | [] => ""
  | [x] => x
  | x :: xs => x ++ sep ++ joinSep sep xs

/-- Embedding of JavaScript `Array.prototype.findIndex`. -/
def findIndex (p : Message → Bool) : List Message → Option Nat
  | [] => none
  | m :: rest => if p m then some 0 else (findIndex p rest).map (· + 1)

/-- Replace the content of the message at position `i`
(`updatedMessages[messageIndex] = { ...updatedMessages[messageIndex],
content: editingContent.trim() }` in `handleSaveEdit`). -/
def replaceAt : List Message → Nat → String → List Message
  | [], _, _ => []
  | m :: rest, 0, c => { m with content := c } :: rest
  | m :: rest, n + 1, c => m :: replaceAt rest n c

/-- A fresh assistant message with the given id and content (the streaming
placeholder is `mkAsst aid ""`). -/
def mkAsst (aid content : String) : Message :=
  { id := aid, role := .assistant, content := content, replyTo := none }

/-- The per-chat-node component state of ChatNode.tsx that the engine
mutates: `messages`, `deletedMessages` (the redo set), the input box,
the in-flight lock `isLoading`, the reply reference, the editing fields
and the `connectedContexts` map (an insertion-ordered association list,
mirroring a JavaScript `Map`). -/
structure ChatState where
  messages : List Message
  deletedMessages : List Message
  input : String
  isLoading : Bool
  replyingTo : Option Message := none
  editingMessageId : Option String := none
  editingContent : String := ""
  connectedContexts : List (String × String) := []
deriving DecidableEq, Repr

/-- `handleUndo` of ChatNode.tsx: if the history is empty, do nothing;
otherwise pop the last message and push it onto `deletedMessages`.
Note the source checks only `messages.length === 0`; it does not consult
`isLoading`. -/
def handleUndo (s : ChatState) : ChatState :=
  match s.messages.getLast? with
  | none => s
  | some last =>
      { s with
        messages := s.messages.dropLast
        deletedMessages := s.deletedMessages ++ [last] }

/-- `handleRedo` of ChatNode.tsx: if the redo set is empty, do nothing;
otherwise pop its most recent element and append it to the history. -/
def handleRedo (s : ChatState) : ChatState :=
  match s.deletedMessages.getLast? with
  | none => s
  | some lastDeleted =>
      { s with
        messages := s.messages ++ [lastDeleted]
        deletedMessages := s.deletedMessages.dropLast }

/-- The `disabled` condition of the Undo button in ChatNode.tsx
(`disabled={messages.length === 0}`). -/
def undoDisabled (s : ChatState) : Bool :=
  s.messages.length == 0

/-- Outcome of one streaming exchange: the chunks received in order, and
whether the transport/decoding failed (after those chunks) or completed. -/
inductive StreamOutcome where
  | success (chunks : List String)
  | failure (chunks : List String)
deriving DecidableEq, Repr

/-- One iteration of the `while (true)` read loop of `handleSend` /
`handleSaveEdit`: extend the accumulator with the chunk and replace the
placeholder message's content wholesale with the accumulator. -/
def streamStep (aid : String) (st : String × List Message) (chunk : String) :
    String × List Message :=
  let acc := st.1 ++ chunk
  (acc, st.2.map fun m => if m.id = aid then { m with content := acc } else m)

/-- Run the whole read loop over a list of chunks, starting from an empty
accumulator. -/
def runStream (aid : String) (msgs : List Message) (chunks : List String) :
    String × List Message :=
  chunks.foldl (streamStep aid) ("", msgs)

/-- Visible content of the placeholder message after the first `k` chunks
have been ingested. -/
def visibleAfter (aid : String) (msgs : List Message) (chunks : List String)
    (k : Nat) : Option String :=
  ((runStream aid msgs (chunks.take k)).2.find? fun m => m.id == aid).map (·.content)

/-- The catch/finally tail of `handleSend` / `handleSaveEdit`: on success the
accumulated reply stays in place; on failure the placeholder is removed
(`setMessages(prev => prev.filter(msg => msg.id !== assistantMessageId))`);
either way the `finally` block clears the in-flight lock. -/
def resolveStream (s : ChatState) (aid : String) : StreamOutcome → ChatState
  | .success chunks =>
      { s with messages := (runStream aid s.messages chunks).2, isLoading := false }
  | .failure chunks =>
      { s with
        messages := ((runStream aid s.messages chunks).2).filter fun m => m.id ≠ aid
        isLoading := false }

/-- The user message constructed by `handleSend` (content is the trimmed
input; the reply reference is snapshotted). -/
def mkUserMessage (s : ChatState) (uid : String) : Message :=
  { id := uid, role := .user, content := jsTrim s.input
    replyTo := s.replyingTo.map fun r => { id := r.id, content := r.content, role := r.role } }

/-- The synchronous part of `handleSend`: reject when the trimmed input is
empty or a stream is in flight; otherwise append the user message, clear the
redo set and the reply reference, clear the input box, set the in-flight
lock, and append the empty assistant placeholder. -/
def handleSendSync (s : ChatState) (uid aid : String) : ChatState :=
  if jsTrim s.input = "" ∨ s.isLoading then s
  else
    { s with
      messages := (s.messages ++ [mkUserMessage s uid]) ++ [mkAsst aid ""]
      deletedMessages := []
      replyingTo := none
      input := ""
      isLoading := true }

/-- `handleSend` of ChatNode.tsx, with the streaming exchange resolved by the
given outcome. -/
def handleSend (s : ChatState) (uid aid : String) (oc : StreamOutcome) : ChatState :=
  if jsTrim s.input = "" ∨ s.isLoading then s
  else resolveStream (handleSendSync s uid aid) aid oc

/-- `handleSaveEdit` of ChatNode.tsx: reject when the trimmed editing content
is empty, no message is being edited (`!editingMessageId`, i.e. `null` or the
empty string), a stream is in flight, or the edited id is not found;
otherwise truncate the history to and including the edited message, replace
its content, clear the editing state and the redo set, set the lock, append
the placeholder and stream the new reply. -/
def handleSaveEdit (s : ChatState) (aid : String) (oc : StreamOutcome) : ChatState :=
  if jsTrim s.editingContent = "" ∨ s.isLoading then s
  else
    match s.editingMessageId with
    | none => s
    | some mid =>
      if mid = "" then s
      else
        match findIndex (fun m => m.id == mid) s.messages with
        | none => s
        | some idx =>
          let updated := replaceAt (s.messages.take (idx + 1)) idx (jsTrim s.editingContent)
          resolveStream
            { s with
              messages := updated ++ [mkAsst aid ""]
              editingMessageId := none
              editingContent := ""
              deletedMessages := []
              isLoading := true } aid oc

/-- An edge of the canvas graph (source and target node ids). -/
structure Edge where
  source : String
  target : String
deriving DecidableEq, Repr

/-- A node of the canvas graph as the watcher reads it: its id, its `type`
(`'contextNode'`, `'chatNode'`, or other), and the `data` fields the watcher
consumes — `label`, the committed context `text` (empty string models the
absent field) and, for chat nodes, the synced `messages`. -/
structure GraphNode where
  id : String
  type : String
  label : String := ""
  text : String := ""
  nodeMessages : List Message := []
deriving DecidableEq, Repr

/-- Rendering of a chat node's message history used as its snapshot:
messages mapped to `**User:** content` / `**Assistant:** content` lines,
joined by blank lines (the `formattedConversation` of ChatNode.tsx). -/
def formatConversation (msgs : List Message) : String :=
  joinSep "\n\n"
    (msgs.map fun m =>
      "**" ++ (if m.role = Role.user then "User" else "Assistant") ++ ":** " ++ m.content)

/-- Embedding of JavaScript `Map.prototype.set` on an insertion-ordered
association list: update in place when the key exists, otherwise append. -/
def mapSet (l : List (String × String)) (k v : String) : List (String × String) :=
  if l.any (fun p => p.1 = k) then l.map (fun p => if p.1 = k then (k, v) else p)
  else l ++ [(k, v)]

/-- Embedding of JavaScript `Map.prototype.get`. -/
def lookupCtx (l : List (String × String)) (k : String) : Option String :=
  (l.find? fun p => p.1 = k).map (·.2)

/-- Insert a key into an insertion-ordered key set if not already present
(embedding the construction of a JavaScript `Set` of map keys). -/
def insertKey (ks : List String) (k : String) : List String :=
  if k ∈ ks then ks else ks ++ [k]

/-- Deduplicate a key list keeping first occurrences (the order in which a
JavaScript `Set` iterates). -/
def dedupKeys (ks : List String) : List String :=
  ks.foldl insertKey []

/-- The insertion-ordered key set of a context map (`new Set(map.keys())`). -/
def keySet (l : List (String × String)) : List String :=
  dedupKeys (l.map (·.1))

/-- One step of the `inputEdges.forEach` loop of the context-monitoring
effect: look up the source node and record its snapshot — the committed
`text` for a context node, the rendered transcript for a chat node, nothing
otherwise. -/
def collectContext (nodes : List GraphNode) (acc : List (String × String))
    (e : Edge) : List (String × String) :=
  match nodes.find? fun n => n.id = e.source with
  | none => acc
  | some n =>
      if n.type = "contextNode" then mapSet acc e.source n.text
      else if n.type = "chatNode" then mapSet acc e.source (formatConversation n.nodeMessages)
      else acc

/-- The `newContexts` map computed by the context-monitoring effect of
ChatNode.tsx for chat node `chatId`: fold over the edges targeting it whose
source id starts with `"node-"`. -/
def computeContexts (chatId : String) (edges : List Edge) (nodes : List GraphNode) :
    List (String × String) :=
  (edges.filter fun e => e.target = chatId ∧ strStartsWith e.source "node-").foldl
    (collectContext nodes) []

/-- The `nodeType` / `contextLabel` pair the effect derives for a source id
(`sourceNode?.type === 'chatNode' ? 'Chat' : 'Context'`;
`(sourceNode?.data as any)?.label || nodeType`). -/
def nodeTypeLabel (nodes : List GraphNode) (cid : String) : String × String :=
  let t :=
    match nodes.find? fun n => n.id = cid with
    | some n => if n.type = "chatNode" then "Chat" else "Context"
    | none => "Context"
  (t, match nodes.find? fun n => n.id = cid with
      | some n => if n.label = "" then t else n.label
      | none => t)

/-- The synthetic connection message injected for a newly connected source. -/
def mkConnectMessage (nodes : List GraphNode) (now cid text : String) : Message :=
  let tl := nodeTypeLabel nodes cid
  { id := "context-" ++ cid ++ "-" ++ now
    role := .assistant
    content := "📎 **" ++ tl.1 ++ " Connected: " ++ tl.2 ++ "**\n\n" ++ text
    replyTo := none }

/-- The synthetic disconnection message injected for a removed source,
carrying the previous snapshot text in full. -/
def mkRemovalMessage (nodes : List GraphNode) (now cid oldText : String) : Message :=
  let tl := nodeTypeLabel nodes cid
  { id := "context-removed-" ++ cid ++ "-" ++ now
    role := .assistant
    content := "📎 **" ++ tl.1 ++ " Disconnected: " ++ tl.2 ++
      "**\n\nThe following information has been removed and should no longer be considered in future responses:\n\n---\n\n"
      ++ oldText ++ "\n\n---\n\n*Please disregard this information going forward.*"
    replyTo := none }

/-- The synthetic update message injected for a source whose snapshot
changed, carrying both the old and the new text. -/
def mkUpdateMessage (nodes : List GraphNode) (now cid oldText newText : String) : Message :=
  let tl := nodeTypeLabel nodes cid
  { id := "context-updated-" ++ cid ++ "-" ++ now
    role := .assistant
    content := "📎 **" ++ tl.1 ++ " Updated: " ++ tl.2 ++
      "**\n\n**Previous version (disregard this):**\n\n---\n\n" ++ oldText ++
      "\n\n---\n\n**New version (use this going forward):**\n\n---\n\n" ++ newText ++
      "\n\n---\n\n*Please disregard the previous version and only use the new information above in all future responses.*"
    replyTo := none }

/-- The connection messages appended by the first diff loop (ids present now
but not previously, in `Set` iteration order). -/
def connectMsgs (prev new : List (String × String)) (nodes : List GraphNode)
    (now : String) : List Message :=
  ((keySet new).filter fun k => decide (k ∉ keySet prev)).map fun cid =>
    mkConnectMessage nodes now cid ((lookupCtx new cid).getD "")

/-- The disconnection messages appended by the second diff loop (ids present
previously but not now). -/
def removalMsgs (prev new : List (String × String)) (nodes : List GraphNode)
    (now : String) : List Message :=
  ((keySet prev).filter fun k => decide (k ∉ keySet new)).map fun cid =>
    mkRemovalMessage nodes now cid ((lookupCtx prev cid).getD "")

/-- The update messages appended by the third diff loop: ids present in both
maps, where the text changed and the new text is non-empty
(`if (oldText !== newText && newText)`). -/
def updateMsgs (prev new : List (String × String)) (nodes : List GraphNode)
    (now : String) : List Message :=
  ((keySet new).filter fun k => decide (k ∈ keySet prev)).filterMap fun cid =>
    if (lookupCtx prev cid).getD "" ≠ (lookupCtx new cid).getD "" ∧
        (lookupCtx new cid).getD "" ≠ "" then
      some (mkUpdateMessage nodes now cid ((lookupCtx prev cid).getD "")
        ((lookupCtx new cid).getD ""))
    else none

/-- Result of one run of the context-monitoring effect: the new context map
(stored back into `connectedContextsRef` / `connectedContexts`) and the
synthetic messages appended to the history, in order (connections, then
removals, then updates). -/
structure ObsResult where
  contexts : List (String × String)
  appended : List Message
deriving DecidableEq, Repr

/-- One run ("tick") of the context-monitoring `useEffect` of ChatNode.tsx
against a previously recorded map `prev`. -/
def observeTick (chatId : String) (prev : List (String × String))
    (edges : List Edge) (nodes : List GraphNode) (now : String) : ObsResult :=
  let newContexts := computeContexts chatId edges nodes
  { contexts := newContexts
    appended :=
      connectMsgs prev newContexts nodes now ++
      removalMsgs prev newContexts nodes now ++
      updateMsgs prev newContexts nodes now }

/-- The effect of one observation tick on the chat node's state. -/
def observeEffect (s : ChatState) (chatId : String) (edges : List Edge)
    (nodes : List GraphNode) (now : String) : ChatState :=
  let r := observeTick chatId s.connectedContexts edges nodes now
  { s with messages := s.messages ++ r.appended, connectedContexts := r.contexts }

/-- Component state of the committed-text context node
(the ContextNode variant with an Apply button): the draft `text`, the
committed `savedText` and the dirty flag. -/
structure CtxState where
  text : String
  savedText : String
  hasChanges : Bool
deriving DecidableEq, Repr

/-- Joint state of one context node and the shared graph node list (whose
`data.text` is what downstream chat nodes read). -/
structure World where
  ctx : CtxState
  nodes : List GraphNode
deriving DecidableEq, Repr

/-- `handleTextChange` of the committed-text ContextNode: update only the
local draft and the dirty flag; the shared node data is untouched. -/
def worldTextChange (w : World) (newText : String) : World :=
  { w with ctx := { w.ctx with text := newText, hasChanges := newText ≠ w.ctx.savedText } }

/-- `handleApplyChanges` of the committed-text ContextNode: copy the draft
into the node's shared `data.text`, record it as saved, clear the flag. -/
def worldApply (w : World) (cid : String) : World :=
  { ctx := { w.ctx with savedText := w.ctx.text, hasChanges := false }
    nodes := w.nodes.map fun n => if n.id = cid then { n with text := w.ctx.text } else n }

/-! ### Helper lemmas: undo and redo -/

lemma handleUndo_concat (s : ChatState) (init : List Message) (last : Message)
    (h : s.messages = init ++ [last]) :
    handleUndo s = { s with messages := init, deletedMessages := s.deletedMessages ++ [last] } := by
  unfold handleUndo
  rw [h, List.getLast?_concat, List.dropLast_concat]

lemma handleRedo_concat (s : ChatState) (init : List Message) (last : Message)
    (h : s.deletedMessages = init ++ [last]) :
    handleRedo s = { s with messages := s.messages ++ [last], deletedMessages := init } := by
  unfold handleRedo
  rw [h, List.getLast?_concat, List.dropLast_concat]

lemma redo_undo (s : ChatState) (hne : s.messages ≠ []) :
    handleRedo (handleUndo s) = s := by
  obtain ⟨init, last, hs⟩ := (List.eq_nil_or_concat' s.messages).resolve_left hne
  rw [handleUndo_concat s init last hs]
  rw [handleRedo_concat _ s.deletedMessages last rfl]
  simp [← hs]

lemma redo_undo_iter : ∀ (n : Nat) (s : ChatState), n ≤ s.messages.length →
    handleRedo^[n] (handleUndo^[n] s) = s := by
  intro n
  induction n with
  | zero => intro s _; rfl
  | succ n ih =>
      intro s hn
      have hne : s.messages ≠ [] := by
        intro h
        rw [h] at hn
        exact absurd hn (by simp)
      obtain ⟨init, last, hs⟩ := (List.eq_nil_or_concat' s.messages).resolve_left hne
      have hlen : n ≤ (handleUndo s).messages.length := by
        rw [handleUndo_concat s init last hs]
        have hsl : s.messages.length = init.length + 1 := by rw [hs]; simp
        show n ≤ init.length
        omega
      calc handleRedo^[n + 1] (handleUndo^[n + 1] s)
          = handleRedo^[n + 1] (handleUndo^[n] (handleUndo s)) :=
            congrArg _ (Function.iterate_succ_apply handleUndo n s)
        _ = handleRedo (handleRedo^[n] (handleUndo^[n] (handleUndo s))) :=
            Function.iterate_succ_apply' handleRedo n _
        _ = handleRedo (handleUndo s) := by rw [ih (handleUndo s) hlen]
        _ = s := redo_undo s hne

/-! ### Claim theorems: C6 and C3 -/

/-- C6: for every non-empty history with no in-flight exchange, redo
immediately after undo restores the full state (in particular the undone
message, byte-identical in id and content, reappears at the end of the
history), and `n` redos after `n` undos restore the original state — the
undone messages are replayed in reverse-undo order. -/
theorem c6_redo_after_undo (s : ChatState) (hload : s.isLoading = false)
    (hne : s.messages ≠ []) :
    handleRedo (handleUndo s) = s ∧
    (∀ n ≤ s.messages.length, handleRedo^[n] (handleUndo^[n] s) = s) := by
  exact ⟨redo_undo s hne, fun n hn => redo_undo_iter n s hn⟩

/-- Witness for C6 at a concrete two-message history, replaying two undos
with two redos. -/
theorem c6_redo_after_undo_witness :
    handleRedo (handleUndo
      { messages := [⟨"1", .user, "hi", none⟩, ⟨"2", .assistant, "yo", none⟩],
        deletedMessages := [], input := "", isLoading := false }) =
      { messages := [⟨"1", .user, "hi", none⟩, ⟨"2", .assistant, "yo", none⟩],
        deletedMessages := [], input := "", isLoading := false } ∧
    handleRedo^[2] (handleUndo^[2]
      { messages := [⟨"1", .user, "hi", none⟩, ⟨"2", .assistant, "yo", none⟩],
        deletedMessages := [], input := "", isLoading := false }) =
      { messages := [⟨"1", .user, "hi", none⟩, ⟨"2", .assistant, "yo", none⟩],
        deletedMessages := [], input := "", isLoading := false } := by
  refine ⟨(c6_redo_after_undo _ rfl (by decide)).1, ?_⟩
  exact (c6_redo_after_undo
    { messages := [⟨"1", .user, "hi", none⟩, ⟨"2", .assistant, "yo", none⟩],
      deletedMessages := [], input := "", isLoading := false } rfl (by decide)).2 2 (by decide)

/-- A chat-node state with one message and an exchange in flight. -/
def c3State : ChatState :=
  { messages := [⟨"1", .user, "hi", none⟩], deletedMessages := [],
    input := "", isLoading := true }

/-- C3 counterexample: invoking undo during an in-flight exchange is not
rejected — on a concrete in-flight state with one message, `handleUndo`
mutates the state (the message list and the redo set both change), because
the source checks only `messages.length === 0` and never `isLoading`. -/
theorem c3_undo_during_stream_mutates :
    c3State.isLoading = true ∧ handleUndo c3State ≠ c3State ∧
    (handleUndo c3State).messages = [] ∧
    (handleUndo c3State).deletedMessages = [⟨"1", .user, "hi", none⟩] := by
  decide

/-- C3 amended: undo is not blocked during an in-flight exchange. Whenever
the history is non-empty — streaming or not — `handleUndo` removes the last
message and pushes it onto the redo set (so state is mutated), and the
Undo button's disabled condition does not hold (it tests only for an empty
history, not for the in-flight lock). -/
theorem c3_undo_not_blocked (s : ChatState) (hl : s.isLoading = true)
    (hne : s.messages ≠ []) :
    handleUndo s ≠ s ∧
    (handleUndo s).messages = s.messages.dropLast ∧
    (handleUndo s).deletedMessages = s.deletedMessages ++ s.messages.getLast?.toList ∧
    undoDisabled s = false := by
  obtain ⟨init, last, hs⟩ := (List.eq_nil_or_concat' s.messages).resolve_left hne
  rw [handleUndo_concat s init last hs]
  refine ⟨?_, ?_, ?_, ?_⟩
  · intro h
    have := congrArg (fun t => t.messages.length) h
    simp only [hs] at this
    simp at this
  · rw [hs]; simp
  · rw [hs]; simp
  · simp only [undoDisabled, hs]
    simp

/-- Witness for the amended C3 at the concrete in-flight state. -/
theorem c3_undo_not_blocked_witness :
    handleUndo c3State ≠ c3State ∧ (handleUndo c3State).messages = c3State.messages.dropLast ∧
    (handleUndo c3State).deletedMessages =
      c3State.deletedMessages ++ c3State.messages.getLast?.toList ∧
    undoDisabled c3State = false :=
  c3_undo_not_blocked c3State rfl (by decide)

/-! ### Helper lemmas: streaming -/

lemma map_content_untouched (aid a : String) (msgs : List Message)
    (h : aid ∉ msgs.map (·.id)) :
    (msgs.map fun m => if m.id = aid then { m with content := a } else m) = msgs := by
  induction msgs with
  | nil => rfl
  | cons m rest ih =>
      simp only [List.map_cons, List.mem_cons, not_or] at h ⊢
      rw [if_neg (fun hc => h.1 hc.symm), ih h.2]

lemma foldl_streamStep_fresh (aid : String) (msgs : List Message)
    (h : aid ∉ msgs.map (·.id)) :
    ∀ (chunks : List String) (acc c : String),
      chunks.foldl (streamStep aid) (acc, msgs ++ [mkAsst aid c]) =
        (acc ++ joinChunks chunks,
         msgs ++ [mkAsst aid (if chunks.isEmpty then c else acc ++ joinChunks chunks)]) := by
  intro chunks
  induction chunks with
  | nil =>
      intro acc c
      simp [joinChunks, String.append_empty]
  | cons ch rest ih =>
      intro acc c
      have hstep : streamStep aid (acc, msgs ++ [mkAsst aid c]) ch =
          (acc ++ ch, msgs ++ [mkAsst aid (acc ++ ch)]) := by
        unfold streamStep
        simp only [List.map_append, map_content_untouched aid (acc ++ ch) msgs h]
        simp [mkAsst]
      rw [List.foldl_cons, hstep, ih (acc ++ ch) (acc ++ ch)]
      cases rest with
      | nil => simp [joinChunks, String.append_empty, String.append_assoc]
      | cons r rs => simp [joinChunks, String.append_assoc]

lemma runStream_fresh (aid : String) (msgs : List Message) (chunks : List String)
    (h : aid ∉ msgs.map (·.id)) :
    runStream aid (msgs ++ [mkAsst aid ""]) chunks =
      (joinChunks chunks, msgs ++ [mkAsst aid (joinChunks chunks)]) := by
  unfold runStream
  rw [foldl_streamStep_fresh aid msgs h chunks "" ""]
  cases chunks with
  | nil => simp [joinChunks]
  | cons c cs => simp [String.empty_append]

lemma filter_map_content (aid a : String) (msgs : List Message) :
    ((msgs.map fun m => if m.id = aid then { m with content := a } else m).filter
        fun m => m.id ≠ aid) =
      msgs.filter fun m => m.id ≠ aid := by
  induction msgs with
  | nil => rfl
  | cons m rest ih =>
      by_cases hm : m.id = aid
      · simpa [List.filter_cons, hm] using ih
      · simpa [List.filter_cons, hm] using ih

lemma runStream_filter (aid : String) (chunks : List String) :
    ∀ (acc : String) (msgs : List Message),
      ((chunks.foldl (streamStep aid) (acc, msgs)).2.filter fun m => m.id ≠ aid) =
        msgs.filter fun m => m.id ≠ aid := by
  induction chunks with
  | nil => intro acc msgs; rfl
  | cons ch rest ih =>
      intro acc msgs
      rw [List.foldl_cons]
      show ((rest.foldl (streamStep aid)
        (acc ++ ch, msgs.map fun m =>
          if m.id = aid then { m with content := acc ++ ch } else m)).2.filter
            fun m => m.id ≠ aid) = _
      rw [ih (acc ++ ch) _, filter_map_content]

lemma filter_ne_of_fresh (aid : String) (msgs : List Message)
    (h : aid ∉ msgs.map (·.id)) :
    (msgs.filter fun m => m.id ≠ aid) = msgs := by
  apply List.filter_eq_self.mpr
  intro m hm
  simp only [ne_eq, decide_eq_true_eq]
  intro hc
  exact h (hc ▸ List.mem_map_of_mem (·.id) hm)

/-! ### Claim theorem: C5 -/

/-- C5: `handleSend` is rejected as a synchronous no-op — never queued —
when the trimmed input is empty or an exchange is already in flight (so at
most one exchange is in flight per node); when accepted, its synchronous
part appends exactly the constructed user message (and the placeholder) and
clears the redo set, and after `undo(); send(...)` a `redo()` is a no-op. -/
theorem c5_send_rejects_and_clears_redo (s : ChatState) (uid aid : String)
    (oc : StreamOutcome) :
    (jsTrim s.input = "" ∨ s.isLoading = true → handleSend s uid aid oc = s) ∧
    (jsTrim s.input ≠ "" → s.isLoading = false →
      handleSendSync s uid aid =
        { s with
          messages := (s.messages ++ [mkUserMessage s uid]) ++ [mkAsst aid ""]
          deletedMessages := []
          replyingTo := none
          input := ""
          isLoading := true } ∧
      (handleSend s uid aid oc).deletedMessages = [] ∧
      handleRedo (handleSend s uid aid oc) = handleSend s uid aid oc) ∧
    (jsTrim s.input ≠ "" → s.isLoading = false → s.messages ≠ [] →
      handleRedo (handleSend (handleUndo s) uid aid oc) =
        handleSend (handleUndo s) uid aid oc) := by
  have hredo_nil : ∀ t : ChatState, t.deletedMessages = [] → handleRedo t = t := by
    intro t ht
    unfold handleRedo
    rw [ht]
    rfl
  have hdel : ∀ (t : ChatState), jsTrim t.input ≠ "" → t.isLoading = false →
      (handleSend t uid aid oc).deletedMessages = [] := by
    intro t h1 h2
    unfold handleSend
    rw [if_neg (by simp [h1, h2])]
    unfold handleSendSync
    rw [if_neg (by simp [h1, h2])]
    cases oc with
    | success chunks => rfl
    | failure chunks => rfl
  refine ⟨?_, ?_, ?_⟩
  · intro h
    unfold handleSend
    rcases h with h | h
    · rw [if_pos (Or.inl h)]
    · rw [if_pos (Or.inr (by simp [h]))]
  · intro h1 h2
    refine ⟨?_, hdel s h1 h2, hredo_nil _ (hdel s h1 h2)⟩
    unfold handleSendSync
    rw [if_neg (by simp [h1, h2])]
  · intro h1 h2 hne
    obtain ⟨init, last, hs⟩ := (List.eq_nil_or_concat' s.messages).resolve_left hne
    have hu := handleUndo_concat s init last hs
    have hui : jsTrim (handleUndo s).input ≠ "" := by rw [hu]; exact h1
    have hul : (handleUndo s).isLoading = false := by rw [hu]; exact h2
    exact hredo_nil _ (hdel _ hui hul)

/-- Witness for C5 at a concrete state: an in-flight send is a no-op, an
accepted send clears the redo set, and undo–send–redo leaves redo a no-op. -/
theorem c5_send_rejects_and_clears_redo_witness :
    (handleSend
      { messages := [], deletedMessages := [], input := "x", isLoading := true }
      "u" "a" (.success ["ok"]) =
      { messages := [], deletedMessages := [], input := "x", isLoading := true }) ∧
    (handleSend
      { messages := [⟨"0", .user, "q", none⟩],
        deletedMessages := [⟨"9", .assistant, "z", none⟩], input := "x",
        isLoading := false } "u" "a" (.success ["ok"])).deletedMessages = [] := by
  constructor
  · exact (c5_send_rejects_and_clears_redo _ "u" "a" _).1 (Or.inr rfl)
  · exact ((c5_send_rejects_and_clears_redo _ "u" "a" _).2.1 (by decide) rfl).2.1

/-! ### Helper lemmas: editing -/

lemma ids_replaceAt : ∀ (l : List Message) (i : Nat) (c : String),
    (replaceAt l i c).map (·.id) = l.map (·.id) := by
  intro l
  induction l with
  | nil => intro i c; cases i <;> rfl
  | cons m rest ih =>
      intro i c
      cases i with
      | zero => rfl
      | succ n => simp [replaceAt, ih rest.length.succ.pred c, ih n c]

lemma take_replace : ∀ (l : List Message) (i : Nat) (c : String) (h : i < l.length),
    replaceAt (l.take (i + 1)) i c = l.take i ++ [{ l.get ⟨i, h⟩ with content := c }] := by
  intro l
  induction l with
  | nil => intro i c h; exact absurd h (by simp)
  | cons m rest ih =>
      intro i c h
      cases i with
      | zero => rfl
      | succ n =>
          have hn : n < rest.length := by simpa using h
          simp only [List.take_succ_cons, replaceAt, List.get_cons_succ]
          rw [ih n c hn]
          rfl

/-! ### Claim theorem: C1 -/

/-- C1: a transport or decoding failure mid-stream removes the entire
placeholder assistant message. For `send`, the resulting history is exactly
the history immediately before the send plus the triggering user message;
for `edit`, it is exactly the truncated history whose last element is the
(edited) triggering user message. In both cases the in-flight lock is
cleared on exit (as it also is on success, per the `finally` block). -/
theorem c1_failure_removes_placeholder :
    (∀ (s : ChatState) (uid aid : String) (chunks : List String),
      jsTrim s.input ≠ "" → s.isLoading = false →
      aid ∉ s.messages.map (·.id) → aid ≠ uid →
      handleSend s uid aid (.failure chunks) =
        { s with
          messages := s.messages ++ [mkUserMessage s uid]
          deletedMessages := []
          replyingTo := none
          input := ""
          isLoading := false }) ∧
    (∀ (s : ChatState) (aid mid : String) (idx : Nat) (chunks : List String),
      jsTrim s.editingContent ≠ "" → s.isLoading = false →
      s.editingMessageId = some mid → mid ≠ "" →
      findIndex (fun m => m.id == mid) s.messages = some idx →
      aid ∉ (s.messages.take (idx + 1)).map (·.id) →
      handleSaveEdit s aid (.failure chunks) =
        { s with
          messages := replaceAt (s.messages.take (idx + 1)) idx (jsTrim s.editingContent)
          editingMessageId := none
          editingContent := ""
          deletedMessages := []
          isLoading := false }) ∧
    (∀ (s : ChatState) (uid aid : String) (oc : StreamOutcome),
      (handleSend s uid aid oc).isLoading = false ∨ handleSend s uid aid oc = s) := by
  have hfail : ∀ (msgs : List Message) (aid : String) (chunks : List String),
      aid ∉ msgs.map (·.id) →
      (((runStream aid (msgs ++ [mkAsst aid ""]) chunks).2).filter fun m => m.id ≠ aid) =
        msgs := by
    intro msgs aid chunks hf
    unfold runStream
    rw [runStream_filter aid chunks "" _, List.filter_append]
    have h1 : ([mkAsst aid ""].filter fun m => m.id ≠ aid) = [] := by
      simp [mkAsst]
    rw [h1, List.append_nil, filter_ne_of_fresh aid msgs hf]
  refine ⟨?_, ?_, ?_⟩
  · intro s uid aid chunks h1 h2 hf hfu
    unfold handleSend
    rw [if_neg (by simp [h1, h2])]
    unfold handleSendSync
    rw [if_neg (by simp [h1, h2])]
    show ({ s with
        messages := (((runStream aid ((s.messages ++ [mkUserMessage s uid]) ++ [mkAsst aid ""])
          chunks).2).filter fun m => m.id ≠ aid)
        deletedMessages := []
        replyingTo := none
        input := ""
        isLoading := false } : ChatState) = _
    have hfresh : aid ∉ (s.messages ++ [mkUserMessage s uid]).map (·.id) := by
      rw [List.map_append]
      intro hc
      rcases List.mem_append.mp hc with hc2 | hc2
      · exact hf hc2
      · simp only [mkUserMessage, List.map_cons, List.map_nil, List.mem_singleton] at hc2
        exact hfu hc2
    rw [hfail (s.messages ++ [mkUserMessage s uid]) aid chunks hfresh]
  · intro s aid mid idx chunks h1 h2 hmid hmne hfind hf
    unfold handleSaveEdit
    rw [if_neg (by simp [h1, h2]), hmid]
    simp only
    rw [if_neg hmne, hfind]
    simp only
    show resolveStream _ aid (.failure chunks) = _
    unfold resolveStream
    simp only
    rw [hfail (replaceAt (s.messages.take (idx + 1)) idx (jsTrim s.editingContent)) aid chunks
      (by rw [ids_replaceAt]; exact hf)]
  · intro s uid aid oc
    by_cases hrej : jsTrim s.input = "" ∨ s.isLoading = true
    · right
      unfold handleSend
      rcases hrej with h | h
      · rw [if_pos (Or.inl h)]
      · rw [if_pos (Or.inr (by simp [h]))]
    · left
      push_neg at hrej
      unfold handleSend
      rw [if_neg (by simp [hrej.1, hrej.2])]
      cases oc <;> rfl

/-- Witness for C1: a failing send at a concrete one-message state leaves
exactly the old history plus the user message, and a failing edit leaves
exactly the truncated history; the lock is clear in both. -/
theorem c1_failure_removes_placeholder_witness :
    handleSend
      { messages := [⟨"1", .user, "q", none⟩, ⟨"2", .assistant, "r", none⟩],
        deletedMessages := [], input := " hi ", isLoading := false }
      "3" "4" (.failure ["par", "tial"]) =
      { messages := [⟨"1", .user, "q", none⟩, ⟨"2", .assistant, "r", none⟩,
          ⟨"3", .user, "hi", none⟩],
        deletedMessages := [], input := "", isLoading := false } ∧
    handleSaveEdit
      { messages := [⟨"1", .user, "q", none⟩, ⟨"2", .assistant, "r", none⟩],
        deletedMessages := [], input := "", isLoading := false,
        editingMessageId := some "1", editingContent := "new" }
      "4" (.failure ["par"]) =
      { messages := [⟨"1", .user, "new", none⟩],
        deletedMessages := [], input := "", isLoading := false,
        editingMessageId := none, editingContent := "" } := by
  constructor
  · have h := c1_failure_removes_placeholder.1
      { messages := [⟨"1", .user, "q", none⟩, ⟨"2", .assistant, "r", none⟩],
        deletedMessages := [], input := " hi ", isLoading := false }
      "3" "4" ["par", "tial"] (by decide) rfl (by decide) (by decide)
    rw [h]
    decide
  · have h := c1_failure_removes_placeholder.2.1
      { messages := [⟨"1", .user, "q", none⟩, ⟨"2", .assistant, "r", none⟩],
        deletedMessages := [], input := "", isLoading := false,
        editingMessageId := some "1", editingContent := "new" }
      "4" "1" 0 ["par"] (by decide) rfl rfl (by decide) (by decide) (by decide)
    rw [h]
    decide

/-! ### Claim theorem: C4 -/

/-- C4: `handleSaveEdit` rejects as a no-op when the edited id is not found,
the new content is empty/whitespace, no edit is active, or a stream is in
flight. When accepted on a user-role message, it truncates the history to
and including the edited message, replaces that message's content with the
trimmed edit, discards every later message, clears the redo set and streams
a fresh reply — the final history is the prefix before the edited message,
then the edited message, then the new assistant reply. -/
theorem c4_edit_truncates_and_replays :
    (∀ (s : ChatState) (aid : String) (oc : StreamOutcome),
      (jsTrim s.editingContent = "" ∨ s.isLoading = true ∨ s.editingMessageId = none ∨
        (∀ mid, s.editingMessageId = some mid →
          findIndex (fun m => m.id == mid) s.messages = none)) →
      handleSaveEdit s aid oc = s) ∧
    (∀ (s : ChatState) (aid mid : String) (idx : Nat) (chunks : List String)
      (hlt : idx < s.messages.length),
      jsTrim s.editingContent ≠ "" → s.isLoading = false →
      s.editingMessageId = some mid → mid ≠ "" →
      findIndex (fun m => m.id == mid) s.messages = some idx →
      (s.messages.get ⟨idx, hlt⟩).role = Role.user →
      aid ∉ (s.messages.take (idx + 1)).map (·.id) →
      handleSaveEdit s aid (.success chunks) =
        { s with
          messages := s.messages.take idx ++
            [{ s.messages.get ⟨idx, hlt⟩ with content := jsTrim s.editingContent }] ++
            [mkAsst aid (joinChunks chunks)]
          editingMessageId := none
          editingContent := ""
          deletedMessages := []
          isLoading := false }) := by
  constructor
  · intro s aid oc hrej
    unfold handleSaveEdit
    rcases hrej with h | h | h | h
    · rw [if_pos (Or.inl h)]
    · rw [if_pos (Or.inr (by simp [h]))]
    · by_cases hcond : jsTrim s.editingContent = "" ∨ s.isLoading = true
      · rcases hcond with hc | hc
        · rw [if_pos (Or.inl hc)]
        · rw [if_pos (Or.inr (by simp [hc]))]
      · push_neg at hcond
        rw [if_neg (by simp [hcond.1, hcond.2]), h]
    · by_cases hfast : jsTrim s.editingContent = "" ∨ s.isLoading = true
      · rcases hfast with hc | hc
        · rw [if_pos (Or.inl hc)]
        · rw [if_pos (Or.inr (by simp [hc]))]
      · push_neg at hfast
        rw [if_neg (by simp [hfast.1, hfast.2])]
        cases hm : s.editingMessageId with
        | none => rfl
        | some mid =>
            simp only
            by_cases hmne : mid = ""
            · rw [if_pos hmne]
            · rw [if_neg hmne, h mid hm]
  · intro s aid mid idx chunks hlt h1 h2 hmid hmne hfind hrole hf
    unfold handleSaveEdit
    rw [if_neg (by simp [h1, h2]), hmid]
    simp only
    rw [if_neg hmne, hfind]
    simp only
    show resolveStream _ aid (.success chunks) = _
    unfold resolveStream
    simp only
    have hfr : aid ∉ (replaceAt (s.messages.take (idx + 1)) idx
        (jsTrim s.editingContent)).map (·.id) := by
      rw [ids_replaceAt]; exact hf
    rw [runStream_fresh aid _ chunks hfr, take_replace s.messages idx (jsTrim s.editingContent) hlt]

/-- Witness for C4: editing the first user message of a two-message history
with a successfully streamed reply yields exactly the edited message
followed by the new reply; the rejection branch fires at an in-flight
state. -/
theorem c4_edit_truncates_and_replays_witness :
    handleSaveEdit
      { messages := [⟨"1", .user, "q", none⟩, ⟨"2", .assistant, "r", none⟩],
        deletedMessages := [⟨"8", .user, "dead", none⟩], input := "", isLoading := false,
        editingMessageId := some "1", editingContent := " new " }
      "4" (.success ["he", "llo"]) =
      { messages := [⟨"1", .user, "new", none⟩, ⟨"4", .assistant, "hello", none⟩],
        deletedMessages := [], input := "", isLoading := false,
        editingMessageId := none, editingContent := "" } ∧
    handleSaveEdit
      { messages := [⟨"1", .user, "q", none⟩], deletedMessages := [], input := "",
        isLoading := true, editingMessageId := some "1", editingContent := "new" }
      "4" (.success ["x"]) =
      { messages := [⟨"1", .user, "q", none⟩], deletedMessages := [], input := "",
        isLoading := true, editingMessageId := some "1", editingContent := "new" } := by
  constructor
  · have h := c4_edit_truncates_and_replays.2
      { messages := [⟨"1", .user, "q", none⟩, ⟨"2", .assistant, "r", none⟩],
        deletedMessages := [⟨"8", .user, "dead", none⟩], input := "", isLoading := false,
        editingMessageId := some "1", editingContent := " new " }
      "4" "1" 0 ["he", "llo"] (by decide) (by decide) rfl rfl (by decide) (by decide) rfl
      (by decide)
    rw [h]
    decide
  · exact c4_edit_truncates_and_replays.1 _ "4" _ (Or.inr (Or.inl rfl))

/-! ### Helper lemmas: visible streaming contents -/

lemma joinChunks_append : ∀ (l1 l2 : List String),
    joinChunks (l1 ++ l2) = joinChunks l1 ++ joinChunks l2 := by
  intro l1 l2
  induction l1 with
  | nil => simp [joinChunks, String.empty_append]
  | cons c cs ih => simp [joinChunks, ih, String.append_assoc]

lemma find?_fresh (aid : String) (base : List Message) (x : Message)
    (h : aid ∉ base.map (·.id)) (hx : x.id = aid) :
    (base ++ [x]).find? (fun m => m.id == aid) = some x := by
  induction base with
  | nil => simp [List.find?, hx]
  | cons m rest ih =>
      simp only [List.map_cons, List.mem_cons, not_or] at h
      have hm : (m.id == aid) = false := by
        simp only [beq_eq_false_iff_ne, ne_eq]
        exact fun hc => h.1 hc.symm
      simp only [List.cons_append, List.find?_cons, hm]
      exact ih h.2

/-! ### Claim theorems: C9 -/

/-- C9 counterexample: the claim that concatenating all intermediate visible
contents of the placeholder reconstructs the final content is false. For the
two-chunk stream `["a", "b"]` the visible contents are `"a"` then `"ab"`;
their concatenation is `"aab"`, which duplicates the first character and
differs from the final content `"ab"`. -/
theorem c9_concat_of_visible_not_final :
    visibleAfter "p" [mkAsst "p" ""] ["a", "b"] 1 = some "a" ∧
    visibleAfter "p" [mkAsst "p" ""] ["a", "b"] 2 = some "ab" ∧
    ((runStream "p" [mkAsst "p" ""] ["a", "b"]).2.find? fun m => m.id == "p").map (·.content) =
      some "ab" ∧
    joinChunks [(visibleAfter "p" [mkAsst "p" ""] ["a", "b"] 1).getD "",
      (visibleAfter "p" [mkAsst "p" ""] ["a", "b"] 2).getD ""] ≠ "ab" := by
  decide

/-- C9 amended: after every chunk the placeholder's visible content is the
concatenation of exactly the chunks received so far — a complete, consistent
prefix of the eventual full reply, with no gaps or duplicated characters —
and the final content is the concatenation of all chunks. (Concatenating the
successive per-chunk increments, not the successive visible snapshots,
reconstructs the final content.) -/
theorem c9_visible_is_accumulated_chunks (base : List Message) (aid : String)
    (chunks : List String) (k : Nat) (h : aid ∉ base.map (·.id)) :
    visibleAfter aid (base ++ [mkAsst aid ""]) chunks k =
      some (joinChunks (chunks.take k)) ∧
    joinChunks (chunks.take k) ++ joinChunks (chunks.drop k) = joinChunks chunks ∧
    (runStream aid (base ++ [mkAsst aid ""]) chunks).2 =
      base ++ [mkAsst aid (joinChunks chunks)] := by
  refine ⟨?_, ?_, ?_⟩
  · unfold visibleAfter
    rw [runStream_fresh aid base (chunks.take k) h]
    rw [find?_fresh aid base _ h rfl]
    rfl
  · rw [← joinChunks_append, List.take_append_drop]
  · exact congrArg Prod.snd (runStream_fresh aid base chunks h)

/-- Witness for the amended C9 on the concrete two-chunk stream. -/
theorem c9_visible_is_accumulated_chunks_witness :
    visibleAfter "p" ([] ++ [mkAsst "p" ""]) ["a", "b"] 1 =
      some (joinChunks (["a", "b"].take 1)) ∧
    joinChunks (["a", "b"].take 1) ++ joinChunks (["a", "b"].drop 1) =
      joinChunks ["a", "b"] ∧
    (runStream "p" ([] ++ [mkAsst "p" ""]) ["a", "b"]).2 =
      [] ++ [mkAsst "p" (joinChunks ["a", "b"])] :=
  c9_visible_is_accumulated_chunks [] "p" ["a", "b"] 1 (by decide)

/-! ### Helper lemmas: key sets and lookups -/

lemma mem_insertKey (ks : List String) (x k : String) :
    k ∈ insertKey ks x ↔ k ∈ ks ∨ k = x := by
  unfold insertKey
  by_cases hx : x ∈ ks
  · rw [if_pos hx]
    constructor
    · exact Or.inl
    · rintro (h | rfl)
      · exact h
      · exact hx
  · rw [if_neg hx]
    simp

lemma mem_dedupKeys_aux (k : String) :
    ∀ (ks acc : List String), k ∈ ks.foldl insertKey acc ↔ k ∈ acc ∨ k ∈ ks := by
  intro ks
  induction ks with
  | nil => simp
  | cons x xs ih =>
      intro acc
      rw [List.foldl_cons, ih (insertKey acc x), mem_insertKey]
      constructor
      · rintro ((h | rfl) | h)
        · exact Or.inl h
        · exact Or.inr (List.mem_cons_self _ _)
        · exact Or.inr (List.mem_cons_of_mem _ h)
      · rintro (h | h)
        · exact Or.inl (Or.inl h)
        · rcases List.mem_cons.mp h with rfl | h
          · exact Or.inl (Or.inr rfl)
          · exact Or.inr h

lemma mem_keySet (l : List (String × String)) (k : String) :
    k ∈ keySet l ↔ k ∈ l.map (·.1) := by
  unfold keySet dedupKeys
  rw [mem_dedupKeys_aux k (l.map (·.1)) []]
  simp

lemma lookupCtx_eq_none (l : List (String × String)) (k : String) :
    lookupCtx l k = none ↔ k ∉ l.map (·.1) := by
  unfold lookupCtx
  rw [Option.map_eq_none']
  rw [List.find?_eq_none]
  constructor
  · intro h hk
    obtain ⟨p, hp, hfst⟩ := List.mem_map.mp hk
    exact (h p hp) (by simpa using hfst)
  · intro h p hp hpk
    exact h (List.mem_map.mpr ⟨p, hp, by simpa using hpk⟩)

lemma mem_keySet_iff_lookup (l : List (String × String)) (k : String) :
    k ∈ keySet l ↔ lookupCtx l k ≠ none := by
  rw [mem_keySet, ne_eq, lookupCtx_eq_none, not_not]

/-- A tick that finds value-equal lookups for every relevant key appends
nothing in any of the three diff loops. -/
lemma diff_loops_empty (prev new : List (String × String)) (nodes : List GraphNode)
    (now : String)
    (h : ∀ k ∈ keySet new ++ keySet prev, lookupCtx prev k = lookupCtx new k) :
    connectMsgs prev new nodes now = [] ∧ removalMsgs prev new nodes now = [] ∧
    updateMsgs prev new nodes now = [] := by
  refine ⟨?_, ?_, ?_⟩
  · unfold connectMsgs
    rw [List.map_eq_nil_iff]
    rw [List.filter_eq_nil_iff]
    intro k hk
    simp only [decide_eq_true_eq, not_not]
    have hl : lookupCtx new k ≠ none := (mem_keySet_iff_lookup new k).mp hk
    have := h k (List.mem_append_left _ hk)
    rw [mem_keySet_iff_lookup, this]
    exact hl
  · unfold removalMsgs
    rw [List.map_eq_nil_iff]
    rw [List.filter_eq_nil_iff]
    intro k hk
    simp only [decide_eq_true_eq, not_not]
    have hl : lookupCtx prev k ≠ none := (mem_keySet_iff_lookup prev k).mp hk
    have := h k (List.mem_append_right _ hk)
    rw [mem_keySet_iff_lookup, ← this]
    exact hl
  · unfold updateMsgs
    rw [List.filterMap_eq_nil_iff]
    intro k hk
    have hkn : k ∈ keySet new := (List.mem_filter.mp hk).1
    have heq := h k (List.mem_append_left _ hkn)
    rw [heq]
    simp

/-! ### Claim theorem: C7 -/

/-- C7: an observation tick that finds no upstream changes (value-equal
lookups for every id in either the previous or the current map) appends no
message and leaves the chat history untouched; consequently, running the
observation a second time with no topology change in between appends zero
messages the second time, unconditionally. -/
theorem c7_observation_idempotent (chatId : String) (edges : List Edge)
    (nodes : List GraphNode) (now now2 : String) (s : ChatState)
    (h : ∀ k ∈ keySet (computeContexts chatId edges nodes) ++ keySet s.connectedContexts,
      lookupCtx s.connectedContexts k = lookupCtx (computeContexts chatId edges nodes) k) :
    (observeTick chatId s.connectedContexts edges nodes now).appended = [] ∧
    (observeEffect s chatId edges nodes now).messages = s.messages ∧
    (observeTick chatId (observeTick chatId s.connectedContexts edges nodes now).contexts
      edges nodes now2).appended = [] := by
  obtain ⟨hc, hr, hu⟩ := diff_loops_empty s.connectedContexts
    (computeContexts chatId edges nodes) nodes now h
  have happ : (observeTick chatId s.connectedContexts edges nodes now).appended = [] := by
    show connectMsgs _ _ _ _ ++ removalMsgs _ _ _ _ ++ updateMsgs _ _ _ _ = []
    rw [hc, hr, hu]
    rfl
  refine ⟨happ, ?_, ?_⟩
  · show s.messages ++ (observeTick chatId s.connectedContexts edges nodes now).appended = _
    rw [happ, List.append_nil]
  · have hself : ∀ k ∈ keySet (computeContexts chatId edges nodes) ++
        keySet (computeContexts chatId edges nodes),
        lookupCtx (computeContexts chatId edges nodes) k =
          lookupCtx (computeContexts chatId edges nodes) k := fun k _ => rfl
    obtain ⟨hc2, hr2, hu2⟩ := diff_loops_empty (computeContexts chatId edges nodes)
      (computeContexts chatId edges nodes) nodes now2 hself
    have hctx : (observeTick chatId s.connectedContexts edges nodes now).contexts =
        computeContexts chatId edges nodes := rfl
    show connectMsgs _ _ _ _ ++ removalMsgs _ _ _ _ ++ updateMsgs _ _ _ _ = []
    rw [hctx, hc2, hr2, hu2]
    rfl

/-- Witness for C7: with one connected context node whose snapshot already
matches the recorded map, a tick appends nothing, and a second tick after
any tick appends nothing. -/
theorem c7_observation_idempotent_witness :
    (observeTick "chat-1" [("node-1", "spec v1")] [⟨"node-1", "chat-1"⟩]
      [{ id := "node-1", type := "contextNode", text := "spec v1" }] "t").appended = [] ∧
    (observeEffect
      { messages := [], deletedMessages := [], input := "", isLoading := false,
        connectedContexts := [("node-1", "spec v1")] }
      "chat-1" [⟨"node-1", "chat-1"⟩]
      [{ id := "node-1", type := "contextNode", text := "spec v1" }] "t").messages = [] ∧
    (observeTick "chat-1"
      (observeTick "chat-1" [("node-1", "spec v1")] [⟨"node-1", "chat-1"⟩]
        [{ id := "node-1", type := "contextNode", text := "spec v1" }] "t").contexts
      [⟨"node-1", "chat-1"⟩]
      [{ id := "node-1", type := "contextNode", text := "spec v1" }] "t2").appended = [] := by
  exact c7_observation_idempotent "chat-1" [⟨"node-1", "chat-1"⟩]
    [{ id := "node-1", type := "contextNode", text := "spec v1" }] "t" "t2"
    { messages := [], deletedMessages := [], input := "", isLoading := false,
      connectedContexts := [("node-1", "spec v1")] }
    (by decide)

/-! ### Helper lemmas: synthetic message ids and key prefixes -/

lemma listIsPrefix_iff : ∀ (p l : List Char), listIsPrefix p l = true ↔ ∃ t, l = p ++ t := by
  intro p
  induction p with
  | nil =>
      intro l
      simp [listIsPrefix]
  | cons a as ih =>
      intro l
      cases l with
      | nil =>
          simp [listIsPrefix]
      | cons b bs =>
          simp only [listIsPrefix, Bool.and_eq_true, beq_iff_eq]
          rw [ih bs]
          constructor
          · rintro ⟨rfl, t, rfl⟩
            exact ⟨t, rfl⟩
          · rintro ⟨t, ht⟩
            rw [List.cons_append] at ht
            injection ht with hb hbs
            exact ⟨hb.symm, t, hbs⟩

lemma ne_append_of_head_ne {a b : Char} (l1 l2 t1 t2 : List Char) (h : a ≠ b) :
    (a :: l1) ++ t1 ≠ (b :: l2) ++ t2 := by
  intro hc
  rw [List.cons_append, List.cons_append] at hc
  injection hc with h1 _
  exact h h1

lemma update_id_inj (c cid now : String)
    (h : "context-updated-" ++ c ++ "-" ++ now = "context-updated-" ++ cid ++ "-" ++ now) :
    c = cid := by
  have h1 := congrArg String.data h
  simp only [String.data_append] at h1
  have h2 := List.append_cancel_right h1
  have h3 := List.append_cancel_right h2
  exact String.ext (List.append_cancel_left h3)

lemma connect_update_clash (c cid now : String) (hc : strStartsWith c "node-" = true)
    (h : "context-" ++ c ++ "-" ++ now = "context-updated-" ++ cid ++ "-" ++ now) :
    False := by
  have h1 := congrArg String.data h
  simp only [String.data_append] at h1
  have h2 := List.append_cancel_right (List.append_cancel_right h1)
  simp only [List.cons_append, List.nil_append] at h2
  injection h2 with _ h2
  injection h2 with _ h2
  injection h2 with _ h2
  injection h2 with _ h2
  injection h2 with _ h2
  injection h2 with _ h2
  injection h2 with _ h2
  injection h2 with _ h2
  obtain ⟨t, ht⟩ := (listIsPrefix_iff ("node-" : String).data c.data).mp hc
  rw [ht] at h2
  simp only [List.cons_append, List.nil_append] at h2
  injection h2 with h3 _
  exact absurd h3 (by decide)

lemma removal_update_clash (c cid now : String)
    (h : "context-removed-" ++ c ++ "-" ++ now = "context-updated-" ++ cid ++ "-" ++ now) :
    False := by
  have h1 := congrArg String.data h
  simp only [String.data_append] at h1
  have h2 := List.append_cancel_right (List.append_cancel_right h1)
  simp only [List.cons_append, List.nil_append] at h2
  injection h2 with _ h2
  injection h2 with _ h2
  injection h2 with _ h2
  injection h2 with _ h2
  injection h2 with _ h2
  injection h2 with _ h2
  injection h2 with _ h2
  injection h2 with _ h2
  injection h2 with h3 _
  exact absurd h3 (by decide)

lemma fst_map_update : ∀ (l : List (String × String)) (k v : String),
    ((l.map fun p => if p.1 = k then (k, v) else p).map (·.1)) = l.map (·.1) := by
  intro l k v
  induction l with
  | nil => rfl
  | cons p ps ih =>
      by_cases hp : p.1 = k
      · simp [hp, ih]
      · simp [hp, ih]

lemma mem_fst_mapSet (l : List (String × String)) (k v k2 : String)
    (h : k2 ∈ (mapSet l k v).map (·.1)) : k2 ∈ l.map (·.1) ∨ k2 = k := by
  unfold mapSet at h
  by_cases hc : l.any (fun p => p.1 = k) = true
  · rw [if_pos hc, fst_map_update] at h
    exact Or.inl h
  · rw [if_neg hc, List.map_append] at h
    rcases List.mem_append.mp h with h2 | h2
    · exact Or.inl h2
    · simp only [List.map_cons, List.map_nil, List.mem_singleton] at h2
      exact Or.inr h2

lemma mem_fst_collectContext (nodes : List GraphNode) (acc : List (String × String))
    (e : Edge) (k : String) (h : k ∈ (collectContext nodes acc e).map (·.1)) :
    k ∈ acc.map (·.1) ∨ k = e.source := by
  unfold collectContext at h
  split at h
  · exact Or.inl h
  · rename_i n hf
    by_cases h1 : n.type = "contextNode"
    · rw [if_pos h1] at h
      exact mem_fst_mapSet _ _ _ _ h
    · rw [if_neg h1] at h
      by_cases h2 : n.type = "chatNode"
      · rw [if_pos h2] at h
        exact mem_fst_mapSet _ _ _ _ h
      · rw [if_neg h2] at h
        exact Or.inl h

lemma keys_foldl_collect (nodes : List GraphNode) (P : String → Prop) :
    ∀ (es : List Edge) (acc : List (String × String)),
      (∀ k ∈ acc.map (·.1), P k) → (∀ e2 ∈ es, P e2.source) →
      ∀ k ∈ (es.foldl (collectContext nodes) acc).map (·.1), P k := by
  intro es
  induction es with
  | nil => intro acc hacc _ k hk; exact hacc k hk
  | cons e2 es2 ih =>
      intro acc hacc hes k hk
      rw [List.foldl_cons] at hk
      refine ih (collectContext nodes acc e2) ?_ (fun x hx => hes x (List.mem_cons_of_mem _ hx))
        k hk
      intro k2 hk2
      rcases mem_fst_collectContext nodes acc e2 k2 hk2 with h2 | rfl
      · exact hacc k2 h2
      · exact hes e2 (List.mem_cons_self _ _)

lemma keys_computeContexts (chatId : String) (edges : List Edge) (nodes : List GraphNode) :
    ∀ k ∈ keySet (computeContexts chatId edges nodes), strStartsWith k "node-" = true := by
  intro k hk
  rw [mem_keySet] at hk
  refine keys_foldl_collect nodes (fun k2 => strStartsWith k2 "node-" = true) _ [] ?_ ?_ k hk
  · intro k2 hk2
    exact absurd hk2 (by simp)
  · intro e2 he2
    have := (List.mem_filter.mp he2).2
    simp only [decide_eq_true_eq] at this
    exact this.2

/-! ### Claim theorem: C8 -/

/-- C8: for an upstream source present in both the previous and the current
observation, the synthetic update message carrying both the old and the new
snapshot text is appended if and only if the two texts differ and the new
text is non-empty. In particular a transition from a non-empty to an empty
snapshot appends no update message. -/
theorem c8_update_message_iff (chatId now cid : String)
    (prev : List (String × String)) (edges : List Edge) (nodes : List GraphNode)
    (h1 : cid ∈ keySet (computeContexts chatId edges nodes))
    (h2 : cid ∈ keySet prev) :
    ((lookupCtx prev cid).getD "" ≠
        (lookupCtx (computeContexts chatId edges nodes) cid).getD "" ∧
      (lookupCtx (computeContexts chatId edges nodes) cid).getD "" ≠ "") ↔
    mkUpdateMessage nodes now cid ((lookupCtx prev cid).getD "")
        ((lookupCtx (computeContexts chatId edges nodes) cid).getD "") ∈
      (observeTick chatId prev edges nodes now).appended := by
  constructor
  · intro hcond
    show _ ∈ connectMsgs prev (computeContexts chatId edges nodes) nodes now ++
      removalMsgs prev (computeContexts chatId edges nodes) nodes now ++
      updateMsgs prev (computeContexts chatId edges nodes) nodes now
    refine List.mem_append_right _ ?_
    apply List.mem_filterMap.mpr
    refine ⟨cid, List.mem_filter.mpr ⟨h1, decide_eq_true h2⟩, ?_⟩
    rw [if_pos hcond]
  · intro hm
    have hm2 : mkUpdateMessage nodes now cid ((lookupCtx prev cid).getD "")
        ((lookupCtx (computeContexts chatId edges nodes) cid).getD "") ∈
        connectMsgs prev (computeContexts chatId edges nodes) nodes now ++
        removalMsgs prev (computeContexts chatId edges nodes) nodes now ++
        updateMsgs prev (computeContexts chatId edges nodes) nodes now := hm
    rcases List.mem_append.mp hm2 with hm3 | hm3
    · rcases List.mem_append.mp hm3 with hm4 | hm4
      · obtain ⟨c, hcf, heq⟩ := List.mem_map.mp hm4
        have hcp : strStartsWith c "node-" = true :=
          keys_computeContexts chatId edges nodes c (List.mem_filter.mp hcf).1
        have hid := congrArg Message.id heq
        simp only [mkConnectMessage, mkUpdateMessage] at hid
        exact (connect_update_clash c cid now hcp hid).elim
      · obtain ⟨c, hcf, heq⟩ := List.mem_map.mp hm4
        have hid := congrArg Message.id heq
        simp only [mkRemovalMessage, mkUpdateMessage] at hid
        exact (removal_update_clash c cid now hid).elim
    · obtain ⟨c, hcf, hfc⟩ := List.mem_filterMap.mp hm3
      by_cases hcc : (lookupCtx prev c).getD "" ≠
          (lookupCtx (computeContexts chatId edges nodes) c).getD "" ∧
          (lookupCtx (computeContexts chatId edges nodes) c).getD "" ≠ ""
      · rw [if_pos hcc] at hfc
        have heq := Option.some.inj hfc
        have hid := congrArg Message.id heq
        simp only [mkUpdateMessage] at hid
        have hceq : c = cid := update_id_inj c cid now hid
        subst hceq
        exact hcc
      · rw [if_neg hcc] at hfc
        exact absurd hfc (by simp)

/-- Witness for C8: a context node committed at `"spec v2"` while the
recorded snapshot is `"spec v1"` produces exactly the update message. -/
theorem c8_update_message_iff_witness :
    ((lookupCtx [("node-1", "spec v1")] "node-1").getD "" ≠
        (lookupCtx (computeContexts "chat-1" [⟨"node-1", "chat-1"⟩]
          [{ id := "node-1", type := "contextNode", text := "spec v2" }]) "node-1").getD "" ∧
      (lookupCtx (computeContexts "chat-1" [⟨"node-1", "chat-1"⟩]
          [{ id := "node-1", type := "contextNode", text := "spec v2" }]) "node-1").getD ""
        ≠ "") ↔
    mkUpdateMessage [{ id := "node-1", type := "contextNode", text := "spec v2" }] "t"
        "node-1" ((lookupCtx [("node-1", "spec v1")] "node-1").getD "")
        ((lookupCtx (computeContexts "chat-1" [⟨"node-1", "chat-1"⟩]
          [{ id := "node-1", type := "contextNode", text := "spec v2" }]) "node-1").getD "") ∈
      (observeTick "chat-1" [("node-1", "spec v1")] [⟨"node-1", "chat-1"⟩]
        [{ id := "node-1", type := "contextNode", text := "spec v2" }] "t").appended :=
  c8_update_message_iff "chat-1" "t" "node-1" [("node-1", "spec v1")]
    [⟨"node-1", "chat-1"⟩] [{ id := "node-1", type := "contextNode", text := "spec v2" }]
    (by decide) (by decide)

/-! ### Claim theorem: C10 -/

lemma filter_without_edge (p : Edge → Bool) (l : List Edge) (e : Edge) (hpe : p e = false) :
    (l.filter fun e2 => decide (e2 ≠ e)).filter p = l.filter p := by
  induction l with
  | nil => rfl
  | cons a l ih =>
      by_cases ha : a = e
      · have hd : (decide (a ≠ e)) = false := by simp [ha]
        have hpa : p a = false := by rw [ha]; exact hpe
        have hinner : (a :: l).filter (fun e2 => decide (e2 ≠ e)) =
            l.filter (fun e2 => decide (e2 ≠ e)) := by
          rw [List.filter_cons, hd]
          simp
        have houter : (a :: l).filter p = l.filter p := by
          rw [List.filter_cons, hpa]
          simp
        rw [hinner, houter, ih]
      · have hd : (decide (a ≠ e)) = true := by simp [ha]
        have hinner : (a :: l).filter (fun e2 => decide (e2 ≠ e)) =
            a :: l.filter (fun e2 => decide (e2 ≠ e)) := by
          rw [List.filter_cons, hd]
          simp
        rw [hinner, List.filter_cons, List.filter_cons, ih]

lemma computeContexts_erase_edge (chatId : String) (edges : List Edge)
    (nodes : List GraphNode) (e : Edge) (hp : strStartsWith e.source "node-" = false) :
    computeContexts chatId (edges.filter fun e2 => decide (e2 ≠ e)) nodes =
      computeContexts chatId edges nodes := by
  unfold computeContexts
  rw [filter_without_edge _ edges e (by simp [hp])]

/-- C10: an edge whose source id does not start with `"node-"` is invisible
to the topology watcher: deleting it from the edge list changes nothing
about the tick (neither the computed upstream snapshot map nor the appended
messages), its source contributes no snapshot, and — given that the
previously recorded keys are themselves `"node-"`-prefixed — every appended
connect, disconnect or update message concerns some `"node-"`-prefixed
source id different from that edge's source. -/
theorem c10_non_prefixed_edges_ignored (chatId now : String)
    (prev : List (String × String)) (edges : List Edge) (nodes : List GraphNode)
    (e : Edge) (hp : strStartsWith e.source "node-" = false)
    (hpfx : ∀ k ∈ keySet prev, strStartsWith k "node-" = true) :
    observeTick chatId prev (edges.filter fun e2 => decide (e2 ≠ e)) nodes now =
      observeTick chatId prev edges nodes now ∧
    e.source ∉ keySet (computeContexts chatId edges nodes) ∧
    ∀ m ∈ (observeTick chatId prev edges nodes now).appended, ∃ c,
      strStartsWith c "node-" = true ∧ c ≠ e.source ∧
      (m = mkConnectMessage nodes now c
          ((lookupCtx (computeContexts chatId edges nodes) c).getD "") ∨
       m = mkRemovalMessage nodes now c ((lookupCtx prev c).getD "") ∨
       m = mkUpdateMessage nodes now c ((lookupCtx prev c).getD "")
          ((lookupCtx (computeContexts chatId edges nodes) c).getD "")) := by
  refine ⟨?_, ?_, ?_⟩
  · unfold observeTick
    rw [computeContexts_erase_edge chatId edges nodes e hp]
  · intro hmem
    have hc := keys_computeContexts chatId edges nodes e.source hmem
    rw [hp] at hc
    exact absurd hc (by simp)
  · intro m hm
    have hm2 : m ∈ connectMsgs prev (computeContexts chatId edges nodes) nodes now ++
        removalMsgs prev (computeContexts chatId edges nodes) nodes now ++
        updateMsgs prev (computeContexts chatId edges nodes) nodes now := hm
    have hnesrc : ∀ c : String, strStartsWith c "node-" = true → c ≠ e.source := by
      intro c hcp hce
      rw [hce, hp] at hcp
      exact absurd hcp (by simp)
    rcases List.mem_append.mp hm2 with hm3 | hm3
    · rcases List.mem_append.mp hm3 with hm4 | hm4
      · obtain ⟨c, hcf, heq⟩ := List.mem_map.mp hm4
        have hcp : strStartsWith c "node-" = true :=
          keys_computeContexts chatId edges nodes c (List.mem_filter.mp hcf).1
        exact ⟨c, hcp, hnesrc c hcp, Or.inl heq.symm⟩
      · obtain ⟨c, hcf, heq⟩ := List.mem_map.mp hm4
        have hcp : strStartsWith c "node-" = true := hpfx c (List.mem_filter.mp hcf).1
        exact ⟨c, hcp, hnesrc c hcp, Or.inr (Or.inl heq.symm)⟩
    · obtain ⟨c, hcf, hfc⟩ := List.mem_filterMap.mp hm3
      have hcp : strStartsWith c "node-" = true :=
        keys_computeContexts chatId edges nodes c (List.mem_filter.mp hcf).1
      by_cases hcc : (lookupCtx prev c).getD "" ≠
          (lookupCtx (computeContexts chatId edges nodes) c).getD "" ∧
          (lookupCtx (computeContexts chatId edges nodes) c).getD "" ≠ ""
      · rw [if_pos hcc] at hfc
        exact ⟨c, hcp, hnesrc c hcp, Or.inr (Or.inr (Option.some.inj hfc).symm)⟩
      · rw [if_neg hcc] at hfc
        exact absurd hfc (by simp)

/-- Witness for C10 at a concrete graph: an edge from a source id without
the `"node-"` prefix is dropped by the tick, contributes no snapshot, and
triggers no message. -/
theorem c10_non_prefixed_edges_ignored_witness :
    observeTick "chat-1" [("node-1", "old")]
        ([(⟨"alien", "chat-1"⟩ : Edge), ⟨"node-1", "chat-1"⟩].filter
          fun e2 => decide (e2 ≠ (⟨"alien", "chat-1"⟩ : Edge)))
        [{ id := "alien", type := "contextNode", text := "evil" },
         { id := "node-1", type := "contextNode", text := "old" }] "t" =
      observeTick "chat-1" [("node-1", "old")]
        [(⟨"alien", "chat-1"⟩ : Edge), ⟨"node-1", "chat-1"⟩]
        [{ id := "alien", type := "contextNode", text := "evil" },
         { id := "node-1", type := "contextNode", text := "old" }] "t" ∧
    ("alien" : String) ∉ keySet (computeContexts "chat-1"
        [(⟨"alien", "chat-1"⟩ : Edge), ⟨"node-1", "chat-1"⟩]
        [{ id := "alien", type := "contextNode", text := "evil" },
         { id := "node-1", type := "contextNode", text := "old" }]) := by
  have h := c10_non_prefixed_edges_ignored "chat-1" "t" [("node-1", "old")]
    [(⟨"alien", "chat-1"⟩ : Edge), ⟨"node-1", "chat-1"⟩]
    [{ id := "alien", type := "contextNode", text := "evil" },
     { id := "node-1", type := "contextNode", text := "old" }]
    (⟨"alien", "chat-1"⟩ : Edge) (by decide) (by decide)
  exact ⟨h.1, h.2.1⟩

/-! ### Claim theorem: C2 -/

lemma foldl_textChange_nodes (edits : List String) :
    ∀ (w : World), (edits.foldl worldTextChange w).nodes = w.nodes := by
  induction edits with
  | nil => intro w; rfl
  | cons t ts ih =>
      intro w
      rw [List.foldl_cons, ih (worldTextChange w t)]
      rfl

/-- C2: a context node's draft edits are invisible downstream until
committed. For every sequence of `handleTextChange` edits with no
intervening Apply, the shared node list is unchanged, hence the upstream
snapshot map computed by any chat node and the entire observation tick
(including every synthetic connect/update message) are unchanged — the
uncommitted text appears nowhere. When Apply does run, the node's exported
`text` becomes exactly the committed draft, verbatim. -/
theorem c2_uncommitted_text_invisible (w : World) (edits : List String)
    (chatId : String) (edges : List Edge) (prev : List (String × String))
    (now : String) :
    (edits.foldl worldTextChange w).nodes = w.nodes ∧
    computeContexts chatId edges (edits.foldl worldTextChange w).nodes =
      computeContexts chatId edges w.nodes ∧
    observeTick chatId prev edges (edits.foldl worldTextChange w).nodes now =
      observeTick chatId prev edges w.nodes now ∧
    (∀ cid n2, n2 ∈ (worldApply (edits.foldl worldTextChange w) cid).nodes →
      n2.id = cid → n2.text = (edits.foldl worldTextChange w).ctx.text) := by
  have hn := foldl_textChange_nodes edits w
  refine ⟨hn, by rw [hn], by rw [hn], ?_⟩
  intro cid n2 hmem hid
  unfold worldApply at hmem
  obtain ⟨n3, hn3, hfn⟩ := List.mem_map.mp hmem
  by_cases h3 : n3.id = cid
  · rw [if_pos h3] at hfn
    rw [← hfn]
  · rw [if_neg h3] at hfn
    rw [← hfn] at hid
    exact absurd hid h3

/-- A concrete world for the C2 witness: one committed context node. -/
def c2W : World :=
  { ctx := { text := "spec v1", savedText := "spec v1", hasChanges := false }
    nodes := [{ id := "node-1", type := "contextNode", text := "spec v1" }] }

/-- Witness for C2: editing the draft to `"draft"` without Apply leaves the
node list unchanged, and after Apply the exported text equals the draft. -/
theorem c2_uncommitted_text_invisible_witness :
    (["draft"].foldl worldTextChange c2W).nodes = c2W.nodes ∧
    ({ id := "node-1", type := "contextNode", text := "draft" } : GraphNode).text =
      (["draft"].foldl worldTextChange c2W).ctx.text := by
  refine ⟨(c2_uncommitted_text_invisible c2W ["draft"] "chat-1" [] [] "t").1, ?_⟩
  exact (c2_uncommitted_text_invisible c2W ["draft"] "chat-1" [] [] "t").2.2.2
    "node-1" { id := "node-1", type := "contextNode", text := "draft" }
    (by decide) rfl

end Wrkbench
